import Mathlib

/-!
# Verification of the `capability` teaching simulator

Shallow embedding of the core of the repository (`teacher.py`, the
simulation loop and aggregation of `evaluator.py`) together with proofs
of the frozen claims about it.

Conventions of the embedding:
* grid locations are an abstract type `Loc` (the code uses integer
  tuples); grid predictions and evaluation grids are abstract types
  `Pred` and `Eval`;
* labels returned by the ground truth are natural numbers (the code uses
  0/1 integers);
* prediction errors are rationals (the code uses floats only for
  comparison by `min`, so any linearly ordered executable field works);
* Python sets and dict iteration are modelled by lists kept in insertion
  order (the fixed canonical enumeration order of the run);
* fallible operations (`random.sample` of an empty population, `min` of
  an empty sequence, indexing `[0]` of an empty tuple) return `Option`,
  `none` standing for the raised exception.
-/

namespace Capability

/-- A 0/1 grid label, as produced by `ground_truth.at`. -/
abbrev Label := Nat

/-- Result of `user_model.predict_grid` as consumed by `evaluator.run`:
a full-grid prediction (possibly `None`) and an optional evaluation grid. -/
structure PredictionResult (Pred Eval : Type) where
  prediction : Option Pred
  evaluation : Option Eval
deriving DecidableEq

/-- Embedding of `History` from `evaluator.py`: the prior and the append-only lists of
examples, predictions and evaluations. -/
structure History (Loc Pred Eval : Type) where
  prior : Eval
  examples : List (Loc × Label)
  predictions : List (Option Pred)
  evaluations : List Eval
deriving DecidableEq

/-- Embedding of `History.__init__`: empty lists, remembering the user prior. -/
def History.init {Loc Pred Eval : Type} (user_prior : Eval) : History Loc Pred Eval :=
  { prior := user_prior, examples := [], predictions := [], evaluations := [] }

/-- Embedding of `History.add_example`: append one example. -/
def History.add_example {Loc Pred Eval : Type} (h : History Loc Pred Eval)
    (example' : Loc × Label) : History Loc Pred Eval :=
  { h with examples := h.examples ++ [example'] }

/-- Embedding of `History.add_prediction_result`: always append the prediction; append
the evaluation only when it is not `None`. -/
def History.add_prediction_result {Loc Pred Eval : Type} (h : History Loc Pred Eval)
    (prediction_result : PredictionResult Pred Eval) : History Loc Pred Eval :=
  { h with
    predictions := h.predictions ++ [prediction_result.prediction],
    evaluations := h.evaluations ++ prediction_result.evaluation.toList }

/-- The two mutating operations a `History` ever receives. -/
inductive HistoryOp (Loc Pred Eval : Type) where
  | addExample (example' : Loc × Label)
  | addPredictionResult (prediction_result : PredictionResult Pred Eval)

/-- Apply one `HistoryOp`. -/
def History.applyOp {Loc Pred Eval : Type} (h : History Loc Pred Eval) :
    HistoryOp Loc Pred Eval → History Loc Pred Eval
  | .addExample ex => h.add_example ex
  | .addPredictionResult pr => h.add_prediction_result pr

/-- Apply a sequence of `HistoryOp`s in order. -/
def History.applyOps {Loc Pred Eval : Type} (h : History Loc Pred Eval)
    (ops : List (HistoryOp Loc Pred Eval)) : History Loc Pred Eval :=
  ops.foldl History.applyOp h

/-! ## Embedding of teacher.py -/

/-- Ground-truth interface used by the teachers: `at(location)` gives
the 0/1 label, `prediction_error(prediction)` scores a grid prediction
(lower is better). -/
structure GroundTruth (Loc Pred : Type) where
  at_ : Loc → Label
  prediction_error : Pred → ℚ

/-- Embedding of `Teacher.remaining_locs`: the fixed location set minus the locations
already present in `history.examples`, recomputed from the `History` on
every call. The Python set is modelled by the duplicate-free list
`locations` kept in its canonical order. -/
def remaining_locs {Loc Pred Eval : Type} [DecidableEq Loc] (locations : List Loc)
    (history : History Loc Pred Eval) : List Loc :=
  locations.filter (fun l => ¬ l ∈ history.examples.map Prod.fst)

/-- Embedding of `itertools.combinations`: all sorted-by-position combinations of `n`
distinct elements of `l`, in lexicographic order of positions; empty
when `n` exceeds the length of `l`. -/
def combinations {α : Type} : Nat → List α → List (List α)
  | 0, _ => [[]]
  | _ + 1, [] => []
  | n + 1, x :: xs =>
      (combinations n xs).map (fun c => x :: c) ++ combinations (n + 1) xs

/-- Left fold of Python `min(..., key=...)` over key-value pairs: keeps
the current best and replaces it only on a strictly smaller value, so
the first minimal element wins. -/
def minKV {α : Type} (kv : α × ℚ) : List (α × ℚ) → α × ℚ
  | [] => kv
  | x :: xs => minKV (if x.2 < kv.2 then x else kv) xs

/-- Embedding of `argmin(kv) = min(kv, key=lambda x: x[1])[0]`; `min` of an empty
sequence raises, modelled by `none`. -/
def argmin {α : Type} : List (α × ℚ) → Option α
  | [] => none
  | kv :: rest => some (minKV kv rest).1

/-- The score `best_example_seq` computes for one candidate combination:
the ground truth's `prediction_error` of the user model's `predict_grid`
on `history.examples` extended with the combination's examples. -/
def seq_error {Loc Pred Eval : Type} (predict_grid : List (Loc × Label) → Pred)
    (gt : GroundTruth Loc Pred) (history : History Loc Pred Eval)
    (example_seq : List Loc) : ℚ :=
  gt.prediction_error
    (predict_grid (history.examples ++ example_seq.map (fun loc => (loc, gt.at_ loc))))

/-- Embedding of `OptimalTeacher.best_example_seq`: score every candidate combination
and take the argmin. The Python-2 dict keyed by combination is modelled
as the association list in insertion order; this fixes the iteration
order of `dict.items()`, which CPython 2 actually performs in hash-slot
order. The minimal value attained, the set of minimisers and emptiness
are iteration-order-invariant, so the facts proved below about which
value wins do not depend on this choice — but which of several TIED
minimisers `min` keeps does depend on it; the theorem for claim C5
below exhibits that divergence. -/
def best_example_seq {Loc Pred Eval : Type} (predict_grid : List (Loc × Label) → Pred)
    (gt : GroundTruth Loc Pred) (example_seqs : List (List Loc))
    (history : History Loc Pred Eval) : Option (List Loc) :=
  argmin (example_seqs.map (fun seq => (seq, seq_error predict_grid gt history seq)))

/-- Embedding of `OptimalTeacher.next_example_rhc`: enumerate the `horizon`-element
combinations of the remaining locations, pick the best combination, then
re-score its members as singleton combinations and return the best
singleton's location with its ground-truth label. Failures (`min` of an
empty sequence, `[0]` of an empty tuple) are `none`. -/
def next_example_rhc {Loc Pred Eval : Type} [DecidableEq Loc]
    (predict_grid : List (Loc × Label) → Pred) (gt : GroundTruth Loc Pred)
    (locations : List Loc) (history : History Loc Pred Eval)
    (horizon : Nat) : Option (Loc × Label) := do
  let example_seqs := combinations horizon (remaining_locs locations history)
  let best_seq ← best_example_seq predict_grid gt example_seqs history
  let singletons := best_seq.map (fun loc => [loc])
  let best ← best_example_seq predict_grid gt singletons history
  let best_next_loc ← best.head?
  some (best_next_loc, gt.at_ best_next_loc)

/-- Embedding of `OptimalTeacher.next_example`: it delegates to `next_example_rhc` with
the default horizon 2. -/
def OptimalTeacher.next_example {Loc Pred Eval : Type} [DecidableEq Loc]
    (predict_grid : List (Loc × Label) → Pred) (gt : GroundTruth Loc Pred)
    (locations : List Loc) (history : History Loc Pred Eval) : Option (Loc × Label) :=
  next_example_rhc predict_grid gt locations history 2

/-- Contract of `random.sample(population, 1)[0]`: it raises exactly on
an empty population and otherwise returns a member of the population. -/
def SampleValid {Loc : Type} (sample : List Loc → Option Loc) : Prop :=
  (∀ l, sample l = none ↔ l = []) ∧ ∀ l x, sample l = some x → x ∈ l

/-- Embedding of `RandomTeacher.next_example`: sample one remaining location and pair
it with its ground-truth label; the random choice is an explicit
`sample` parameter. -/
def RandomTeacher.next_example {Loc Pred Eval : Type} [DecidableEq Loc]
    (sample : List Loc → Option Loc) (gt : GroundTruth Loc Pred)
    (locations : List Loc) (history : History Loc Pred Eval) : Option (Loc × Label) :=
  (sample (remaining_locs locations history)).map (fun loc => (loc, gt.at_ loc))

/-- Modelled from the spec: `GridTeacher.next_example`. `GridTeacher` is
imported by `evaluator.py` but its definition is missing from the
provided sources; per the spec it "selects the next Location by a fixed,
strategy-defined deterministic order over the Location Space restricted
to remaining_locations (e.g., lexicographic raster order)", so it takes
the first remaining location in the fixed canonical order of
`locations`. -/
def GridTeacher.next_example {Loc Pred Eval : Type} [DecidableEq Loc]
    (gt : GroundTruth Loc Pred) (locations : List Loc)
    (history : History Loc Pred Eval) : Option (Loc × Label) :=
  (remaining_locs locations history).head?.map (fun loc => (loc, gt.at_ loc))

/-! ## Embedding of evaluator.run, the simulation loop -/

/-- One round of `evaluator.run`: ask the teacher for the next example
given the current history, append it, ask the user model to predict from
all examples taught so far, append the prediction result. A failure of
either collaborator aborts the round. -/
def runStep {Loc Pred Eval : Type}
    (teacher : History Loc Pred Eval → Option (Loc × Label))
    (user_predict : List (Loc × Label) → Option (PredictionResult Pred Eval))
    (h : History Loc Pred Eval) : Option (History Loc Pred Eval) := do
  let example' ← teacher h
  let h1 := h.add_example example'
  let prediction_result ← user_predict h1.examples
  some (h1.add_prediction_result prediction_result)

/-- Running `n` further rounds of the simulation loop from history `h`. -/
def runFrom {Loc Pred Eval : Type}
    (teacher : History Loc Pred Eval → Option (Loc × Label))
    (user_predict : List (Loc × Label) → Option (PredictionResult Pred Eval)) :
    Nat → History Loc Pred Eval → Option (History Loc Pred Eval)
  | 0, h => some h
  | n + 1, h => (runStep teacher user_predict h).bind (runFrom teacher user_predict n)

/-- Embedding of `evaluator.run`: `N_EXAMPLES` rounds starting from the empty history
with the user model's prior. -/
def run {Loc Pred Eval : Type} (n_examples : Nat) (prior : Eval)
    (teacher : History Loc Pred Eval → Option (Loc × Label))
    (user_predict : List (Loc × Label) → Option (PredictionResult Pred Eval)) :
    Option (History Loc Pred Eval) :=
  runFrom teacher user_predict n_examples (History.init prior)

/-! ## Embedding of aggregate_teacher_accuracies -/

/-- Insert into a sorted list (ascending). -/
def insertSorted (x : ℚ) : List ℚ → List ℚ
  | [] => [x]
  | y :: ys => if x ≤ y then x :: y :: ys else y :: insertSorted x ys

/-- Sort ascending (insertion sort). -/
def sortAsc (l : List ℚ) : List ℚ := l.foldr insertSorted []

/-- Embedding of `np.percentile(xs, q)` with the default linear interpolation between
order statistics: for the ascending sort `a` of `xs` with `n` elements,
the value at fractional rank `q/100 * (n-1)`. -/
def percentile (q : ℚ) (xs : List ℚ) : ℚ :=
  let sorted := sortAsc xs
  let n := sorted.length
  if n = 0 then 0
  else
    let rank := q / 100 * ((n : ℚ) - 1)
    let i := rank.floor.toNat
    let frac := rank - (rank.floor : ℚ)
    let lo := sorted.getD i 0
    let hi := sorted.getD (i + 1) lo
    lo + frac * (hi - lo)

/-- Column `j` (the per-round slice) of a stacked accuracy matrix. -/
def column (j : Nat) (rows : List (List ℚ)) : List ℚ :=
  rows.map (fun r => r.getD j 0)

/-- Embedding of `np.percentile(rows, q, axis=0)` on a matrix with `n` columns:
the percentile of each column separately. -/
def percentiles_by_column (q : ℚ) (rows : List (List ℚ)) (n : Nat) : List ℚ :=
  (List.range n).map (fun j => percentile q (column j rows))

/-- The contribution of one teacher config to
`aggregate_teacher_accuracies`. `acc i` is the accuracy sequence of the
`i`-th repetition (the embedding of the stochastic
`compute_teacher_accuracies` call). With `reps == 1` the raw sequence is
emitted under the teacher's name; otherwise the `reps` sequences are
stacked and the per-column 95th, 50th and 5th percentiles are emitted,
in this order, under suffixed names. -/
def aggregate_one (n_examples : Nat) (name : String) (reps : Nat)
    (acc : Nat → List ℚ) : List (String × List ℚ) :=
  if reps = 1 then [(name, acc 0)]
  else
    let all_reps := (List.range reps).map acc
    [(name ++ "-p95", percentiles_by_column 95 all_reps n_examples),
     (name ++ "-median", percentiles_by_column 50 all_reps n_examples),
     (name ++ "-p05", percentiles_by_column 5 all_reps n_examples)]

/-- Embedding of `aggregate_teacher_accuracies`: concatenate the contributions of the
teacher configs, each given as (teacher name, reps, accuracy sequences). -/
def aggregate_teacher_accuracies (n_examples : Nat)
    (configs : List (String × Nat × (Nat → List ℚ))) : List (String × List ℚ) :=
  (configs.map (fun cfg => aggregate_one n_examples cfg.1 cfg.2.1 cfg.2.2)).flatten

/-! ## Concrete instances used by the witnesses -/

/-- A concrete ground truth on `Nat` locations: every label is 1, the
error of a (numeric) prediction is the prediction itself. -/
def natGroundTruth : GroundTruth Nat Nat :=
  { at_ := fun _ => 1, prediction_error := fun p => (p : ℚ) }

/-- A concrete user model whose prediction is the number of examples. -/
def lenUserModel : List (Nat × Label) → Nat := fun exs => exs.length

/-- A concrete user model with a constant prediction (all candidate
scores tie). -/
def constUserModel : List (Nat × Label) → Nat := fun _ => 0

/-- A concrete deterministic sampler: take the head of the population. -/
def headSample {Loc : Type} : List Loc → Option Loc := fun l => l.head?

/-- A concrete user model for the simulation loop: predicts the number
of examples, supplies no evaluation. -/
def lenRunModel : List (Nat × Label) → Option (PredictionResult Nat Unit) :=
  fun exs => some { prediction := some exs.length, evaluation := none }

/-- A concrete accuracy-per-repetition function: repetition `i` yields
the two-round accuracy sequence `[i, i]`. -/
def accW : Nat → List ℚ := fun i => [(i : ℚ), (i : ℚ)]

/-! ## Embedding of eval_omniscient_teachers (construction with keyword arguments) -/

/-- Python exceptions relevant to the embedded code. -/
inductive PyError where
  | typeError
  | valueError
deriving DecidableEq, Repr

/-- Keyword parameter names accepted by `RandomTeacher.__init__`
(`self` aside): `settings`, `ground_truth`. -/
def RandomTeacher.init_params : List String := ["settings", "ground_truth"]

/-- Keyword parameter names accepted by `OptimalTeacher.__init__`
(`self` aside): `settings`, `ground_truth`, `user_model`. -/
def OptimalTeacher.init_params : List String := ["settings", "ground_truth", "user_model"]

/-- Modelled from the spec: the `GridTeacher` constructor. `GridTeacher`
is imported by `evaluator.py` but its definition is missing from the
provided sources; per the spec it is a strategy with no learner
awareness, so like `RandomTeacher` its constructor takes the settings
and the ground truth. -/
def GridTeacher.init_params : List String := ["settings", "ground_truth"]

/-- Calling a Python `__init__` with the given argument names: a
`TypeError` is raised when some argument name is not a parameter. -/
def construct (params : List String) (args : List String) : Except PyError Unit :=
  if args.all (fun a => params.contains a) then .ok () else .error .typeError

/-- Outcome of `eval_omniscient_teachers` when no exception is raised. -/
inductive EvalOutcome where
  | plottedGroundTruthOnly
  | ranSimulations
deriving DecidableEq, Repr

/-- Embedding of `eval_omniscient_teachers`, up to the point where teachers are
constructed: the ground truth is plotted, then for `TEACHER_REPS <= 0`
the function returns; otherwise the three teachers are constructed, each
with the extra keyword argument `with_replacement`, before any
simulation is run. -/
def eval_omniscient_teachers (teacher_reps : Int) : Except PyError EvalOutcome :=
  if teacher_reps ≤ 0 then .ok .plottedGroundTruthOnly
  else do
    let _ ← construct RandomTeacher.init_params
      ["settings", "ground_truth", "with_replacement"]
    let _ ← construct GridTeacher.init_params
      ["settings", "ground_truth", "with_replacement"]
    let _ ← construct OptimalTeacher.init_params
      ["settings", "ground_truth", "user_model", "with_replacement"]
    .ok .ranSimulations

/-! ## Helper lemmas about argmin, combinations and remaining_locs -/

/-- Running `minKV` on pairs `(s, f s)` returns the first pair attaining
the minimal value: the input splits around the result, everything before
it is strictly larger, everything is at least the result. -/
lemma minKV_map_spec {α : Type} (f : α → ℚ) :
    ∀ (l : List α) (a : α) (x : α × ℚ),
      minKV (a, f a) (l.map (fun s => (s, f s))) = x →
      x.2 = f x.1 ∧
      ∃ pre suf, a :: l = pre ++ x.1 :: suf ∧
        (∀ b ∈ pre, f x.1 < f b) ∧ (∀ b ∈ a :: l, f x.1 ≤ f b) := by
  intro l
  induction l with
  | nil =>
    intro a x hx
    simp only [List.map_nil, minKV] at hx
    subst hx
    exact ⟨rfl, [], [], rfl, by simp, by simp⟩
  | cons c t ih =>
    intro a x hx
    simp only [List.map_cons, minKV] at hx
    by_cases h : f c < f a
    · simp only [h, if_pos] at hx
      obtain ⟨hval, pre, suf, hsplit, hstrict, hle⟩ := ih c x hx
      have hxc : f x.1 ≤ f c := hle c (by simp)
      refine ⟨hval, a :: pre, suf, by simpa using congrArg (List.cons a) hsplit, ?_, ?_⟩
      · intro b hb
        rcases List.mem_cons.mp hb with hb | hb
        · exact hb ▸ lt_of_le_of_lt hxc h
        · exact hstrict b hb
      · intro b hb
        rcases List.mem_cons.mp hb with hb | hb
        · exact hb ▸ le_of_lt (lt_of_le_of_lt hxc h)
        · exact hle b hb
    · simp only [h, if_neg, not_false_iff] at hx
      have hca : f a ≤ f c := le_of_not_lt h
      obtain ⟨hval, pre, suf, hsplit, hstrict, hle⟩ := ih a x hx
      cases pre with
      | nil =>
        simp only [List.nil_append, List.cons.injEq] at hsplit
        obtain ⟨hxa, hsuf⟩ := hsplit
        refine ⟨hval, [], c :: t, by simp [hxa], by simp, ?_⟩
        intro b hb
        rcases List.mem_cons.mp hb with hb | hb
        · exact hb ▸ hle a (by simp)
        · rcases List.mem_cons.mp hb with hb | hb
          · exact hb ▸ (hxa ▸ hca)
          · exact hle b (by simp [hb])
      | cons p pre₀ =>
        simp only [List.cons_append, List.cons.injEq] at hsplit
        obtain ⟨hpa, htail⟩ := hsplit
        have hxa : f x.1 < f a := hpa ▸ hstrict p (by simp)
        refine ⟨hval, a :: c :: pre₀, suf, ?_, ?_, ?_⟩
        · simp [htail]
        · intro b hb
          rcases List.mem_cons.mp hb with hb | hb
          · exact hb ▸ hxa
          · rcases List.mem_cons.mp hb with hb | hb
            · exact hb ▸ lt_of_lt_of_le hxa hca
            · exact hstrict b (by simp [hb])
        · intro b hb
          rcases List.mem_cons.mp hb with hb | hb
          · exact hb ▸ le_of_lt hxa
          · rcases List.mem_cons.mp hb with hb | hb
            · exact hb ▸ le_of_lt (lt_of_lt_of_le hxa hca)
            · exact hle b (by simp [hb])

/-- Applied to pairs `(s, f s)`, `argmin` returns the first element of the list
attaining the minimal score. -/
lemma argmin_map_spec {α : Type} (f : α → ℚ) (l : List α) (x : α)
    (h : argmin (l.map (fun s => (s, f s))) = some x) :
    ∃ pre suf, l = pre ++ x :: suf ∧
      (∀ b ∈ pre, f x < f b) ∧ (∀ b ∈ l, f x ≤ f b) := by
  cases l with
  | nil => simp [argmin] at h
  | cons a t =>
    simp only [List.map_cons, argmin, Option.some.injEq] at h
    obtain ⟨hval, pre, suf, hsplit, hstrict, hle⟩ :=
      minKV_map_spec f t a (minKV (a, f a) (t.map (fun s => (s, f s)))) rfl
    exact ⟨pre, suf, h ▸ hsplit, fun b hb => h ▸ hstrict b hb, fun b hb => h ▸ hle b hb⟩

/-- Applied to a map over a nonempty list, `argmin` succeeds. -/
lemma argmin_map_isSome {α : Type} (f : α → ℚ) (l : List α) (hne : l ≠ []) :
    ∃ x, argmin (l.map (fun s => (s, f s))) = some x := by
  cases l with
  | nil => exact absurd rfl hne
  | cons a t => exact ⟨_, rfl⟩

/-- The result of `argmin` over pairs `(s, f s)` is an element of the list. -/
lemma argmin_map_mem {α : Type} (f : α → ℚ) (l : List α) (x : α)
    (h : argmin (l.map (fun s => (s, f s))) = some x) : x ∈ l := by
  obtain ⟨pre, suf, hsplit, -, -⟩ := argmin_map_spec f l x h
  subst hsplit
  simp

/-- Every member of `combinations n l` has length `n` and its elements
come from `l`. -/
lemma combinations_mem_spec {α : Type} :
    ∀ (l : List α) (n : Nat) (c : List α), c ∈ combinations n l →
      c.length = n ∧ ∀ x ∈ c, x ∈ l := by
  intro l
  induction l with
  | nil =>
    intro n c hc
    cases n with
    | zero =>
      simp only [combinations, List.mem_singleton] at hc
      subst hc; simp
    | succ m => simp [combinations] at hc
  | cons a t ih =>
    intro n c hc
    cases n with
    | zero =>
      simp only [combinations, List.mem_singleton] at hc
      subst hc; simp
    | succ m =>
      simp only [combinations, List.mem_append, List.mem_map] at hc
      rcases hc with ⟨c₀, hc₀, rfl⟩ | hc
      · obtain ⟨hlen, hmem⟩ := ih m c₀ hc₀
        refine ⟨by simp [hlen], ?_⟩
        intro x hx
        rcases List.mem_cons.mp hx with hx | hx
        · simp [hx]
        · exact List.mem_cons_of_mem a (hmem x hx)
      · obtain ⟨hlen, hmem⟩ := ih (m + 1) c hc
        exact ⟨hlen, fun x hx => List.mem_cons_of_mem a (hmem x hx)⟩

/-- When `n` elements are available, `combinations n l` is nonempty. -/
lemma combinations_ne_nil {α : Type} :
    ∀ (l : List α) (n : Nat), n ≤ l.length → combinations n l ≠ [] := by
  intro l
  induction l with
  | nil =>
    intro n hn
    have hn0 : n = 0 := Nat.le_zero.mp (by simpa using hn)
    subst hn0
    simp [combinations]
  | cons a t ih =>
    intro n hn
    cases n with
    | zero => simp [combinations]
    | succ m =>
      have := ih m (by simpa using hn)
      simp only [combinations, ne_eq, List.append_eq_nil, List.map_eq_nil_iff, not_and]
      intro hmap
      exact absurd hmap this

/-- With fewer than `n` elements available, `combinations n l` is empty:
`itertools.combinations` yields nothing, it does not fall back. -/
lemma combinations_eq_nil {α : Type} :
    ∀ (l : List α) (n : Nat), l.length < n → combinations n l = [] := by
  intro l
  induction l with
  | nil =>
    intro n hn
    cases n with
    | zero => omega
    | succ m => simp [combinations]
  | cons a t ih =>
    intro n hn
    cases n with
    | zero => omega
    | succ m =>
      have h1 : combinations m t = [] := ih m (by simpa using hn)
      have h2 : combinations (m + 1) t = [] := ih (m + 1) (by simp at hn; omega)
      simp [combinations, h1, h2]

/-- Membership in `remaining_locs`: in the fixed location list and not
yet shown. -/
lemma mem_remaining_locs {Loc Pred Eval : Type} [DecidableEq Loc] (locations : List Loc)
    (history : History Loc Pred Eval) (l : Loc) :
    l ∈ remaining_locs locations history ↔
      l ∈ locations ∧ l ∉ history.examples.map Prod.fst := by
  simp [remaining_locs]

/-- Applied to a nonempty candidate list, `best_example_seq` succeeds. -/
lemma best_example_seq_isSome {Loc Pred Eval : Type}
    (predict_grid : List (Loc × Label) → Pred) (gt : GroundTruth Loc Pred)
    (example_seqs : List (List Loc)) (history : History Loc Pred Eval)
    (hne : example_seqs ≠ []) :
    ∃ s, best_example_seq predict_grid gt example_seqs history = some s :=
  argmin_map_isSome _ example_seqs hne

/-- The winning candidate of `best_example_seq` is one of the candidates. -/
lemma best_example_seq_mem {Loc Pred Eval : Type}
    (predict_grid : List (Loc × Label) → Pred) (gt : GroundTruth Loc Pred)
    (example_seqs : List (List Loc)) (history : History Loc Pred Eval) (s : List Loc)
    (h : best_example_seq predict_grid gt example_seqs history = some s) :
    s ∈ example_seqs :=
  argmin_map_mem _ example_seqs s h

/-- The winning candidate of `best_example_seq` minimises the score. -/
lemma best_example_seq_min {Loc Pred Eval : Type}
    (predict_grid : List (Loc × Label) → Pred) (gt : GroundTruth Loc Pred)
    (example_seqs : List (List Loc)) (history : History Loc Pred Eval) (s : List Loc)
    (h : best_example_seq predict_grid gt example_seqs history = some s) :
    ∀ c ∈ example_seqs,
      seq_error predict_grid gt history s ≤ seq_error predict_grid gt history c := by
  obtain ⟨pre, suf, hsplit, -, hle⟩ :=
    argmin_map_spec (seq_error predict_grid gt history) example_seqs s h
  exact hle

/-- A successful `next_example_rhc` returns a still-remaining location
paired with its ground-truth label. -/
lemma next_example_rhc_mem {Loc Pred Eval : Type} [DecidableEq Loc]
    (predict_grid : List (Loc × Label) → Pred) (gt : GroundTruth Loc Pred)
    (locations : List Loc) (history : History Loc Pred Eval) (horizon : Nat)
    (loc : Loc) (lab : Label)
    (h : next_example_rhc predict_grid gt locations history horizon = some (loc, lab)) :
    loc ∈ remaining_locs locations history ∧ lab = gt.at_ loc := by
  cases h1 : best_example_seq predict_grid gt
      (combinations horizon (remaining_locs locations history)) history with
  | none => simp [next_example_rhc, h1] at h
  | some best_seq =>
    cases h2 : best_example_seq predict_grid gt
        (best_seq.map (fun loc => [loc])) history with
    | none => simp [next_example_rhc, h1, h2] at h
    | some best =>
      have hbm : best ∈ best_seq.map (fun loc => [loc]) :=
        best_example_seq_mem _ _ _ _ _ h2
      obtain ⟨l₀, hl₀, rfl⟩ := List.mem_map.mp hbm
      simp only [next_example_rhc, h1, h2, Option.bind_eq_bind, Option.some_bind,
        List.head?, Option.some_bind, Option.some.injEq, Prod.mk.injEq] at h
      obtain ⟨rfl, rfl⟩ := h
      have hseq : best_seq ∈ combinations horizon (remaining_locs locations history) :=
        best_example_seq_mem _ _ _ _ _ h1
      obtain ⟨-, hsub⟩ := combinations_mem_spec _ _ _ hseq
      exact ⟨hsub l₀ hl₀, rfl⟩

/-! ## Helper lemmas about the simulation loop -/

/-- Taking a prefix-length-plus-`n` prefix of an append. -/
lemma take_len_append {α : Type} (l₁ l₂ : List α) (n : Nat) :
    (l₁ ++ l₂).take (l₁.length + n) = l₁ ++ l₂.take n := by
  induction l₁ with
  | nil => simp
  | cons a t ih =>
    have harith : (a :: t).length + n = (t.length + n) + 1 := by
      simp only [List.length_cons]; omega
    rw [harith, List.cons_append, List.take_succ_cons, ih, List.cons_append]

/-- Taking exactly the appended prefix. -/
lemma take_len_append0 {α : Type} (l₁ l₂ : List α) :
    (l₁ ++ l₂).take l₁.length = l₁ := by
  simp

/-- Taking the appended prefix plus the next element. -/
lemma take_len_succ_append {α : Type} (l₁ : List α) (a : α) (l₂ : List α) :
    (l₁ ++ a :: l₂).take (l₁.length + 1) = l₁ ++ [a] := by
  simpa using take_len_append l₁ (a :: l₂) 1

/-- The element just past an appended prefix. -/
lemma get?_len_append {α : Type} (l₁ : List α) (a : α) (l₂ : List α) :
    (l₁ ++ a :: l₂).get? l₁.length = some a := by
  induction l₁ with
  | nil => rfl
  | cons b t ih => simpa using ih

/-- The function `Rat.floor` agrees with the floor of the `FloorRing` instance. -/
lemma ratFloor_eq_floor (q : ℚ) : q.floor = ⌊q⌋ := rfl

/-- A filter that returns `a` first splits the list at the first
element satisfying the predicate. -/
lemma filter_eq_cons_split {α : Type} (p : α → Bool) :
    ∀ (l : List α) (a : α) (t : List α), l.filter p = a :: t →
      ∃ pre suf, l = pre ++ a :: suf ∧ (∀ x ∈ pre, p x = false) ∧ p a = true := by
  intro l
  induction l with
  | nil => intro a t h; simp at h
  | cons b l₀ ih =>
    intro a t h
    by_cases hb : p b
    · rw [List.filter_cons_of_pos hb] at h
      injection h with h1 h2
      subst h1
      exact ⟨[], l₀, rfl, by simp, hb⟩
    · rw [List.filter_cons_of_neg (by simpa using hb)] at h
      obtain ⟨pre, suf, hsplit, hpre, hpa⟩ := ih a t h
      refine ⟨b :: pre, suf, by simp [hsplit], ?_, hpa⟩
      intro x hx
      rcases List.mem_cons.mp hx with hx | hx
      · subst hx; simpa using hb
      · exact hpre x hx

/-- Inversion of a successful `runStep`. -/
lemma runStep_some {Loc Pred Eval : Type}
    (teacher : History Loc Pred Eval → Option (Loc × Label))
    (user_predict : List (Loc × Label) → Option (PredictionResult Pred Eval))
    (h h' : History Loc Pred Eval) (hs : runStep teacher user_predict h = some h') :
    ∃ ex pr, teacher h = some ex ∧ user_predict (h.examples ++ [ex]) = some pr ∧
      h' = (h.add_example ex).add_prediction_result pr := by
  cases ht : teacher h with
  | none => simp [runStep, ht] at hs
  | some ex =>
    cases hu : user_predict ((h.add_example ex).examples) with
    | none => simp [runStep, ht, hu] at hs
    | some pr =>
      simp only [runStep, ht, Option.bind_eq_bind, Option.some_bind, hu,
        Option.some.injEq] at hs
      exact ⟨ex, pr, rfl, hu, hs.symm⟩

/-- Splitting the rounds of the simulation loop. -/
lemma runFrom_add {Loc Pred Eval : Type}
    (teacher : History Loc Pred Eval → Option (Loc × Label))
    (user_predict : List (Loc × Label) → Option (PredictionResult Pred Eval)) :
    ∀ (a b : Nat) (h : History Loc Pred Eval),
      runFrom teacher user_predict (a + b) h =
        (runFrom teacher user_predict a h).bind (runFrom teacher user_predict b) := by
  intro a
  induction a with
  | zero =>
    intro b h
    simp [runFrom]
  | succ n ih =>
    intro b h
    have harith : n + 1 + b = (n + b) + 1 := by omega
    rw [harith]
    cases hst : runStep teacher user_predict h with
    | none => simp [runFrom, hst]
    | some h1 => simp [runFrom, hst, ih b h1]

/-- Each round of the loop appends exactly one example and one
prediction. -/
lemma runFrom_history_spec {Loc Pred Eval : Type}
    (teacher : History Loc Pred Eval → Option (Loc × Label))
    (user_predict : List (Loc × Label) → Option (PredictionResult Pred Eval)) :
    ∀ (n : Nat) (h h' : History Loc Pred Eval),
      runFrom teacher user_predict n h = some h' →
      ∃ exs prs, h'.examples = h.examples ++ exs ∧ exs.length = n ∧
        h'.predictions = h.predictions ++ prs ∧ prs.length = n := by
  intro n
  induction n with
  | zero =>
    intro h h' hr
    simp only [runFrom, Option.some.injEq] at hr
    subst hr
    exact ⟨[], [], by simp, rfl, by simp, rfl⟩
  | succ n ih =>
    intro h h' hr
    cases hst : runStep teacher user_predict h with
    | none => simp [runFrom, hst] at hr
    | some h1 =>
      simp only [runFrom, hst, Option.some_bind] at hr
      obtain ⟨ex, pr, ht, hu, rfl⟩ := runStep_some teacher user_predict h h1 hst
      obtain ⟨exs, prs, he, hel, hp, hpl⟩ := ih _ h' hr
      refine ⟨ex :: exs, pr.prediction :: prs, ?_, by simp [hel], ?_, by simp [hpl]⟩
      · simpa [History.add_example, History.add_prediction_result] using he
      · simpa [History.add_example, History.add_prediction_result] using hp

/-- If every example a teacher emits is drawn from the remaining
locations, a completed run never repeats a location. -/
lemma run_pairwise_of_teacher_mem {Loc Pred Eval : Type} [DecidableEq Loc]
    (teacher : History Loc Pred Eval → Option (Loc × Label))
    (user_predict : List (Loc × Label) → Option (PredictionResult Pred Eval))
    (locations : List Loc)
    (hT : ∀ hist ex, teacher hist = some ex →
      ex.1 ∈ remaining_locs locations hist)
    (n : Nat) (prior : Eval) (h' : History Loc Pred Eval)
    (hr : run n prior teacher user_predict = some h') :
    (h'.examples.map Prod.fst).Pairwise (fun a b => a ≠ b) := by
  suffices H : ∀ (n : Nat) (h h' : History Loc Pred Eval),
      runFrom teacher user_predict n h = some h' →
      (h.examples.map Prod.fst).Pairwise (fun a b => a ≠ b) →
      (h'.examples.map Prod.fst).Pairwise (fun a b => a ≠ b) by
    exact H n (History.init prior) h' hr (by simp [History.init])
  intro n
  induction n with
  | zero =>
    intro h h' hr hp
    simp only [runFrom, Option.some.injEq] at hr
    exact hr ▸ hp
  | succ n ih =>
    intro h h' hr hp
    cases hst : runStep teacher user_predict h with
    | none => simp [runFrom, hst] at hr
    | some h1 =>
      simp only [runFrom, hst, Option.some_bind] at hr
      obtain ⟨ex, pr, ht, hu, rfl⟩ := runStep_some teacher user_predict h h1 hst
      refine ih _ h' hr ?_
      have hmem := hT h ex ht
      have hnot : ex.1 ∉ h.examples.map Prod.fst :=
        ((mem_remaining_locs locations h ex.1).mp hmem).2
      have hexamples : ((h.add_example ex).add_prediction_result pr).examples =
          h.examples ++ [ex] := rfl
      rw [hexamples, List.map_append, List.pairwise_append]
      refine ⟨hp, by simp, ?_⟩
      intro a ha b hb
      simp only [List.map_cons, List.map_nil, List.mem_singleton] at hb
      subst hb
      intro hab
      exact hnot (hab ▸ ha)

/-! ## Theorems for claims C9 and C10 -/

/-- C9: for every `TEACHER_REPS > 0`, `eval_omniscient_teachers` raises a
`TypeError` before any simulation run is started, because the teacher
constructors are called with a `with_replacement` keyword argument none
of them accepts; for `TEACHER_REPS <= 0` it returns right after plotting
the ground truth, constructing no teacher and running no simulation. -/
theorem eval_omniscient_teachers_spec (teacher_reps : Int) :
    eval_omniscient_teachers teacher_reps =
      if teacher_reps ≤ 0 then .ok .plottedGroundTruthOnly
      else .error .typeError := by
  by_cases h : teacher_reps ≤ 0 <;>
    simp [eval_omniscient_teachers, construct, RandomTeacher.init_params, h,
      Bind.bind, Except.bind]

/-- C10: `History.add_prediction_result` always appends the prediction,
even a `None` one, but appends the evaluation only when it is not
`None`; consequently, after any sequence of operations applied to a
fresh `History`, `len(evaluations) ≤ len(predictions)`, and a round
whose evaluation is `None` grows `predictions` but not `evaluations`. -/
theorem add_prediction_result_spec {Loc Pred Eval : Type} :
    (∀ (h : History Loc Pred Eval) (pr : PredictionResult Pred Eval),
      (h.add_prediction_result pr).predictions = h.predictions ++ [pr.prediction] ∧
      (h.add_prediction_result pr).evaluations =
        (match pr.evaluation with
          | some e => h.evaluations ++ [e]
          | none => h.evaluations)) ∧
    (∀ (prior : Eval) (ops : List (HistoryOp Loc Pred Eval)),
      ((History.init prior).applyOps ops).evaluations.length ≤
        ((History.init prior).applyOps ops).predictions.length) := by
  constructor
  · intro h pr
    refine ⟨rfl, ?_⟩
    cases hpe : pr.evaluation <;>
      simp [History.add_prediction_result, Option.toList, hpe]
  · intro prior ops
    suffices H : ∀ (ops : List (HistoryOp Loc Pred Eval)) (h : History Loc Pred Eval),
        h.evaluations.length ≤ h.predictions.length →
        (h.applyOps ops).evaluations.length ≤ (h.applyOps ops).predictions.length by
      exact H ops (History.init prior) (by simp [History.init])
    intro ops
    induction ops with
    | nil => intro h hle; simpa [History.applyOps] using hle
    | cons op rest ih =>
      intro h hle
      have hstep : (h.applyOp op).evaluations.length ≤ (h.applyOp op).predictions.length := by
        cases op with
        | addExample ex => simpa [History.applyOp, History.add_example] using hle
        | addPredictionResult pr =>
          cases hpe : pr.evaluation <;>
            simp [History.applyOp, History.add_prediction_result, Option.toList, hpe] <;>
            omega
      simpa [History.applyOps] using ih (h.applyOp op) hstep

/-- The head sampler satisfies the `random.sample` contract. -/
lemma sampleValid_headSample {Loc : Type} : SampleValid (@headSample Loc) := by
  constructor
  · intro l
    cases l <;> simp [headSample]
  · intro l x h
    cases l with
    | nil => simp [headSample] at h
    | cons a t =>
      simp only [headSample, List.head?, Option.some.injEq] at h
      simp [h]

/-- C1: with at least 2 remaining locations, `OptimalTeacher.next_example`
(receding horizon 2) picks the argmin combination among all 2-element
combinations of the remaining locations scored by the ground truth's
prediction error of the user model's prediction on the extended example
list, then re-scores the winning combination's members as singleton
combinations and returns the argmin singleton's location with its
ground-truth label; the returned location is a member of the winning
combination. -/
theorem next_example_rhc_horizon2_spec {Loc Pred Eval : Type} [DecidableEq Loc]
    (predict_grid : List (Loc × Label) → Pred) (gt : GroundTruth Loc Pred)
    (locations : List Loc) (history : History Loc Pred Eval)
    (hlen : 2 ≤ (remaining_locs locations history).length) :
    ∃ best_seq loc,
      best_example_seq predict_grid gt
        (combinations 2 (remaining_locs locations history)) history = some best_seq ∧
      (∀ c ∈ combinations 2 (remaining_locs locations history),
        seq_error predict_grid gt history best_seq ≤
          seq_error predict_grid gt history c) ∧
      best_example_seq predict_grid gt (best_seq.map (fun l => [l])) history =
        some [loc] ∧
      (∀ l ∈ best_seq,
        seq_error predict_grid gt history [loc] ≤
          seq_error predict_grid gt history [l]) ∧
      OptimalTeacher.next_example predict_grid gt locations history =
        some (loc, gt.at_ loc) ∧
      loc ∈ best_seq := by
  obtain ⟨best_seq, h1⟩ := best_example_seq_isSome predict_grid gt
    (combinations 2 (remaining_locs locations history)) history
    (combinations_ne_nil _ 2 hlen)
  have hseq : best_seq ∈ combinations 2 (remaining_locs locations history) :=
    best_example_seq_mem _ _ _ _ _ h1
  obtain ⟨hlen2, -⟩ := combinations_mem_spec _ _ _ hseq
  have hne : best_seq.map (fun l => [l]) ≠ [] := by
    cases best_seq with
    | nil => simp at hlen2
    | cons a t => simp
  obtain ⟨best, h2⟩ := best_example_seq_isSome predict_grid gt
    (best_seq.map (fun l => [l])) history hne
  obtain ⟨l₀, hl₀, rfl⟩ := List.mem_map.mp (best_example_seq_mem _ _ _ _ _ h2)
  refine ⟨best_seq, l₀, h1, best_example_seq_min _ _ _ _ _ h1, h2, ?_, ?_, hl₀⟩
  · intro l hl
    exact best_example_seq_min _ _ _ _ _ h2 [l] (List.mem_map.mpr ⟨l, hl, rfl⟩)
  · simp [OptimalTeacher.next_example, next_example_rhc, h1, h2]

/-- Witness for C1: a 3-location grid with an empty history. -/
theorem next_example_rhc_horizon2_spec_witness :
    ∃ best_seq loc,
      best_example_seq lenUserModel natGroundTruth
        (combinations 2 (remaining_locs [0, 1, 2] (History.init () : History Nat Nat Unit)))
        (History.init ()) = some best_seq ∧
      (∀ c ∈ combinations 2 (remaining_locs [0, 1, 2] (History.init () : History Nat Nat Unit)),
        seq_error lenUserModel natGroundTruth (History.init ()) best_seq ≤
          seq_error lenUserModel natGroundTruth (History.init ()) c) ∧
      best_example_seq lenUserModel natGroundTruth (best_seq.map (fun l => [l]))
        (History.init ()) = some [loc] ∧
      (∀ l ∈ best_seq,
        seq_error lenUserModel natGroundTruth (History.init ()) [loc] ≤
          seq_error lenUserModel natGroundTruth (History.init ()) [l]) ∧
      OptimalTeacher.next_example lenUserModel natGroundTruth [0, 1, 2]
        (History.init ()) = some (loc, natGroundTruth.at_ loc) ∧
      loc ∈ best_seq :=
  next_example_rhc_horizon2_spec lenUserModel natGroundTruth [0, 1, 2]
    (History.init ()) (by decide)

/-- C2 counterexample: with exactly one remaining location (so
`0 < k < h = 2`), `OptimalTeacher.next_example` does not return a valid
example — the combination enumeration is empty and the argmin fails. -/
theorem next_example_rhc_no_fallback_cex :
    (remaining_locs [0] (History.init () : History Nat Nat Unit)).length = 1 ∧
    OptimalTeacher.next_example lenUserModel natGroundTruth [0]
      (History.init ()) = none := by
  constructor
  · decide
  · decide

/-- C2 (amended): for a history whose number `k` of remaining locations
satisfies `0 < k < h` (horizon `h = 2`), the combination enumeration of
`OptimalTeacher.next_example` is empty — `itertools.combinations` does
not fall back to using all remaining locations — so the call fails (the
argmin is taken over an empty collection) instead of returning a next
example. -/
theorem next_example_rhc_too_few_locs {Loc Pred Eval : Type} [DecidableEq Loc]
    (predict_grid : List (Loc × Label) → Pred) (gt : GroundTruth Loc Pred)
    (locations : List Loc) (history : History Loc Pred Eval)
    (_hk : 0 < (remaining_locs locations history).length)
    (hk2 : (remaining_locs locations history).length < 2) :
    combinations 2 (remaining_locs locations history) = [] ∧
    OptimalTeacher.next_example predict_grid gt locations history = none := by
  have h0 : combinations 2 (remaining_locs locations history) = [] :=
    combinations_eq_nil _ _ hk2
  refine ⟨h0, ?_⟩
  simp [OptimalTeacher.next_example, next_example_rhc, h0, best_example_seq, argmin]

/-- Witness for the amended C2, at the concrete counterexample input. -/
theorem next_example_rhc_too_few_locs_witness :
    combinations 2 (remaining_locs [0] (History.init () : History Nat Nat Unit)) = [] ∧
    OptimalTeacher.next_example lenUserModel natGroundTruth [0]
      (History.init ()) = none :=
  next_example_rhc_too_few_locs lenUserModel natGroundTruth [0]
    (History.init ()) (by decide) (by decide)

/-- C5 (code bug): the claimed first-in-enumeration tie-breaking is what
the spec mandates ("must be preserved for reproducibility") but not what
the Python-2 source computes. `best_example_seq` takes `min` over
`dict.items()`, and a CPython 2 dict iterates in hash-slot order, not
insertion order: with the two singleton candidates `(1,)` and `(2,)`
enumerated in that order, `hash((1,)) mod 8 = 6` and
`hash((2,)) mod 8 = 1`, so an 8-slot dict scans the items as
`[(2,), (1,)]`. At the failing input below both candidates attain the
minimal prediction error (a constant user model ties them), and `min` —
embedded here as `argmin`, which keeps the first minimal item scanned —
returns `(2,)` when scanning in the dict's hash-slot order but `(1,)`
when scanning in enumeration order: the winner of a tie depends on the
hash layout, so the code does not implement the claimed (and
spec-required) first-in-enumeration-order policy. -/
theorem best_example_seq_dict_order_bug :
    seq_error constUserModel natGroundTruth
        (History.init () : History Nat Nat Unit) [1] =
      seq_error constUserModel natGroundTruth (History.init ()) [2] ∧
    argmin (([[2], [1]] : List (List Nat)).map (fun s =>
      (s, seq_error constUserModel natGroundTruth
        (History.init () : History Nat Nat Unit) s))) = some [2] ∧
    argmin (([[1], [2]] : List (List Nat)).map (fun s =>
      (s, seq_error constUserModel natGroundTruth
        (History.init () : History Nat Nat Unit) s))) = some [1] ∧
    ([2] : List Nat) ≠ [1] := by
  refine ⟨by decide, by decide, by decide, by decide⟩

/-- C7: calling any teacher's `next_example` on a history with no
remaining locations fails — the random teacher's sample of an empty
population, the optimal teacher's argmin over an empty combination
list, and the (spec-modelled) grid teacher's head of an empty list all
fail rather than returning a previously used location. -/
theorem next_example_exhaustion {Loc Pred Eval : Type} [DecidableEq Loc]
    (sample : List Loc → Option Loc)
    (predict_grid : List (Loc × Label) → Pred) (gt : GroundTruth Loc Pred)
    (locations : List Loc) (history : History Loc Pred Eval)
    (hs : SampleValid sample)
    (hrem : remaining_locs locations history = []) :
    RandomTeacher.next_example sample gt locations history = none ∧
    OptimalTeacher.next_example predict_grid gt locations history = none ∧
    GridTeacher.next_example gt locations history = none := by
  refine ⟨?_, ?_, ?_⟩
  · simp [RandomTeacher.next_example, hrem, (hs.1 []).mpr rfl]
  · simp [OptimalTeacher.next_example, next_example_rhc, hrem, combinations,
      best_example_seq, argmin]
  · simp [GridTeacher.next_example, hrem]

/-- Witness for C7: the single location is already used up. -/
theorem next_example_exhaustion_witness :
    RandomTeacher.next_example headSample natGroundTruth [0]
      ((History.init () : History Nat Nat Unit).add_example (0, 1)) = none ∧
    OptimalTeacher.next_example lenUserModel natGroundTruth [0]
      ((History.init () : History Nat Nat Unit).add_example (0, 1)) = none ∧
    GridTeacher.next_example natGroundTruth [0]
      ((History.init () : History Nat Nat Unit).add_example (0, 1)) = none :=
  next_example_exhaustion headSample lenUserModel natGroundTruth [0]
    ((History.init ()).add_example (0, 1)) sampleValid_headSample (by decide)

/-- C3: a completed `run` performs exactly `n_examples` rounds; in each
round `i` (0-based) the teacher is consulted on the history after `i`
rounds (which has `i` examples and `i` predictions), its example is
appended, and the user model's prediction — computed from the full
cumulative example list, all `i + 1` examples taught so far — is
appended; the final history has `n_examples` examples and predictions. -/
theorem run_spec {Loc Pred Eval : Type}
    (n_examples : Nat) (prior : Eval)
    (teacher : History Loc Pred Eval → Option (Loc × Label))
    (user_predict : List (Loc × Label) → Option (PredictionResult Pred Eval))
    (h' : History Loc Pred Eval)
    (hr : run n_examples prior teacher user_predict = some h') :
    h'.examples.length = n_examples ∧ h'.predictions.length = n_examples ∧
    ∀ i, i < n_examples → ∃ hᵢ ex pr,
      run i prior teacher user_predict = some hᵢ ∧
      hᵢ.examples.length = i ∧ hᵢ.predictions.length = i ∧
      hᵢ.examples = h'.examples.take i ∧
      teacher hᵢ = some ex ∧
      h'.examples.get? i = some ex ∧
      user_predict (h'.examples.take (i + 1)) = some pr ∧
      h'.predictions.get? i = some pr.prediction := by
  obtain ⟨exsAll, prsAll, heAll, helAll, hpAll, hplAll⟩ :=
    runFrom_history_spec teacher user_predict n_examples (History.init prior) h' hr
  refine ⟨by simp [heAll, History.init, helAll], by simp [hpAll, History.init, hplAll], ?_⟩
  intro i hi
  have hr0 : runFrom teacher user_predict n_examples (History.init prior) = some h' := hr
  have hsplit : n_examples = (i + 1) + (n_examples - (i + 1)) := by omega
  rw [hsplit, runFrom_add] at hr0
  cases hmid : runFrom teacher user_predict (i + 1) (History.init prior) with
  | none => rw [hmid] at hr0; simp at hr0
  | some h₂ =>
    rw [hmid] at hr0
    simp only [Option.some_bind] at hr0
    rw [runFrom_add teacher user_predict i 1] at hmid
    cases hruni : runFrom teacher user_predict i (History.init prior) with
    | none => rw [hruni] at hmid; simp at hmid
    | some hᵢ =>
      rw [hruni] at hmid
      simp only [Option.some_bind] at hmid
      cases hstep : runStep teacher user_predict hᵢ with
      | none => simp [runFrom, hstep] at hmid
      | some h₂' =>
        simp only [runFrom, hstep, Option.some_bind, Option.some.injEq] at hmid
        subst hmid
        obtain ⟨ex, pr, ht, hu, rfl⟩ := runStep_some teacher user_predict hᵢ h₂' hstep
        obtain ⟨exsI, prsI, heI, helI, hpI, hplI⟩ :=
          runFrom_history_spec teacher user_predict i (History.init prior) hᵢ hruni
        have hleni : hᵢ.examples.length = i := by simp [heI, History.init, helI]
        have hlenpi : hᵢ.predictions.length = i := by simp [hpI, History.init, hplI]
        obtain ⟨exs₂, prs₂, he₂, hel₂, hp₂, hpl₂⟩ :=
          runFrom_history_spec teacher user_predict (n_examples - (i + 1)) _ h' hr0
        have hex : h'.examples = hᵢ.examples ++ (ex :: exs₂) := by
          simpa [History.add_example, History.add_prediction_result,
            List.append_assoc] using he₂
        have hpx : h'.predictions = hᵢ.predictions ++ (pr.prediction :: prs₂) := by
          simpa [History.add_example, History.add_prediction_result,
            List.append_assoc] using hp₂
        refine ⟨hᵢ, ex, pr, hruni, hleni, hlenpi, ?_, ht, ?_, ?_, ?_⟩
        · rw [hex, ← hleni, take_len_append0 hᵢ.examples (ex :: exs₂)]
        · rw [hex, ← hleni]
          exact get?_len_append hᵢ.examples ex exs₂
        · rw [hex, ← hleni, take_len_succ_append]
          simpa [History.add_example] using hu
        · rw [hpx, ← hlenpi]
          exact get?_len_append hᵢ.predictions pr.prediction prs₂

/-- Witness for C3: two rounds with the random teacher over a
2-location grid, using the head sampler. -/
theorem run_spec_witness :
    (History.mk () [(0, 1), (1, 1)] [some 1, some 2] [] : History Nat Nat Unit).examples.length = 2 ∧
    (History.mk () [(0, 1), (1, 1)] [some 1, some 2] [] : History Nat Nat Unit).predictions.length = 2 ∧
    ∀ i, i < 2 → ∃ hᵢ ex pr,
      run i () (RandomTeacher.next_example headSample natGroundTruth [0, 1])
        lenRunModel = some hᵢ ∧
      hᵢ.examples.length = i ∧ hᵢ.predictions.length = i ∧
      hᵢ.examples =
        (History.mk () [(0, 1), (1, 1)] [some 1, some 2] [] : History Nat Nat Unit).examples.take i ∧
      RandomTeacher.next_example headSample natGroundTruth [0, 1] hᵢ = some ex ∧
      (History.mk () [(0, 1), (1, 1)] [some 1, some 2] [] : History Nat Nat Unit).examples.get? i = some ex ∧
      lenRunModel
        ((History.mk () [(0, 1), (1, 1)] [some 1, some 2] [] : History Nat Nat Unit).examples.take (i + 1)) = some pr ∧
      (History.mk () [(0, 1), (1, 1)] [some 1, some 2] [] : History Nat Nat Unit).predictions.get? i = some pr.prediction :=
  run_spec 2 () (RandomTeacher.next_example headSample natGroundTruth [0, 1])
    lenRunModel (History.mk () [(0, 1), (1, 1)] [some 1, some 2] []) (by decide)

/-- C6: a completed run with the random teacher (for any sampler obeying
the `random.sample` contract) or with the optimal teacher never teaches
the same location twice: both teachers draw only from `remaining_locs`,
which is recomputed from the history each call, so the example locations
are pairwise distinct. -/
theorem run_no_repeats {Loc Pred Eval : Type} [DecidableEq Loc]
    (sample : List Loc → Option Loc)
    (predict_grid : List (Loc × Label) → Pred) (gt : GroundTruth Loc Pred)
    (locations : List Loc)
    (user_predict : List (Loc × Label) → Option (PredictionResult Pred Eval))
    (n_examples : Nat) (prior : Eval) (hs : SampleValid sample) :
    (∀ h₁, run n_examples prior (RandomTeacher.next_example sample gt locations)
        user_predict = some h₁ →
      (h₁.examples.map Prod.fst).Pairwise (fun a b => a ≠ b)) ∧
    (∀ h₂, run n_examples prior (OptimalTeacher.next_example predict_grid gt locations)
        user_predict = some h₂ →
      (h₂.examples.map Prod.fst).Pairwise (fun a b => a ≠ b)) := by
  constructor
  · intro h₁ hr
    refine run_pairwise_of_teacher_mem _ user_predict locations ?_ n_examples prior h₁ hr
    intro hist ex ht
    cases hsam : sample (remaining_locs locations hist) with
    | none => simp [RandomTeacher.next_example, hsam] at ht
    | some l =>
      simp only [RandomTeacher.next_example, hsam, Option.map_some',
        Option.some.injEq] at ht
      subst ht
      exact hs.2 _ l hsam
  · intro h₂ hr
    refine run_pairwise_of_teacher_mem _ user_predict locations ?_ n_examples prior h₂ hr
    intro hist ex ht
    obtain ⟨loc, lab⟩ := ex
    exact (next_example_rhc_mem predict_grid gt locations hist 2 loc lab ht).1

/-- Witness for C6: a 3-location grid, two rounds, head sampler. -/
theorem run_no_repeats_witness :
    (∀ h₁, run 2 () (RandomTeacher.next_example headSample natGroundTruth [0, 1, 2])
        lenRunModel = some h₁ →
      (h₁.examples.map Prod.fst).Pairwise (fun a b => a ≠ b)) ∧
    (∀ h₂, run 2 () (OptimalTeacher.next_example lenUserModel natGroundTruth [0, 1, 2])
        lenRunModel = some h₂ →
      (h₂.examples.map Prod.fst).Pairwise (fun a b => a ≠ b)) :=
  run_no_repeats headSample lenUserModel natGroundTruth [0, 1, 2]
    lenRunModel 2 () sampleValid_headSample

/-- C4: in `aggregate_teacher_accuracies` each config contributes in
order; a config with `reps == 1` contributes exactly one raw accuracy
sequence labelled with the teacher's name, and a config with `reps > 1`
contributes exactly three sequences labelled `{name}-p95`,
`{name}-median` and `{name}-p05`, whose round-`j` entry is the 95th,
50th resp. 5th percentile (linear interpolation between order
statistics) of column `j` of the stacked `(reps, N_EXAMPLES)` accuracy
matrix — computed per round, never pooling rounds together. -/
theorem aggregate_teacher_accuracies_spec (n_examples : Nat) (name : String)
    (reps : Nat) (acc : Nat → List ℚ)
    (configs : List (String × Nat × (Nat → List ℚ))) :
    aggregate_teacher_accuracies n_examples ((name, reps, acc) :: configs) =
      aggregate_one n_examples name reps acc ++
        aggregate_teacher_accuracies n_examples configs ∧
    (reps = 1 → aggregate_one n_examples name reps acc = [(name, acc 0)]) ∧
    (1 < reps → aggregate_one n_examples name reps acc =
      [(name ++ "-p95",
        (List.range n_examples).map (fun j =>
          percentile 95 (((List.range reps).map acc).map (fun r => r.getD j 0)))),
       (name ++ "-median",
        (List.range n_examples).map (fun j =>
          percentile 50 (((List.range reps).map acc).map (fun r => r.getD j 0)))),
       (name ++ "-p05",
        (List.range n_examples).map (fun j =>
          percentile 5 (((List.range reps).map acc).map (fun r => r.getD j 0))))]) := by
  refine ⟨?_, ?_, ?_⟩
  · simp [aggregate_teacher_accuracies]
  · intro h1
    simp [aggregate_one, h1]
  · intro h1
    have hne : reps ≠ 1 := by omega
    simp [aggregate_one, hne, percentiles_by_column, column]

/-- Witness for C4: one raw config and one stacked config with 3
repetitions of 2 rounds each; additionally, the 95th percentile of the
first column `[0, 1, 2]` is `1.9` by linear interpolation. -/
theorem aggregate_teacher_accuracies_spec_witness :
    (aggregate_one 2 "x" 1 accW = [("x", accW 0)]) ∧
    (aggregate_one 2 "x" 3 accW =
      [("x" ++ "-p95",
        (List.range 2).map (fun j =>
          percentile 95 (((List.range 3).map accW).map (fun r => r.getD j 0)))),
       ("x" ++ "-median",
        (List.range 2).map (fun j =>
          percentile 50 (((List.range 3).map accW).map (fun r => r.getD j 0)))),
       ("x" ++ "-p05",
        (List.range 2).map (fun j =>
          percentile 5 (((List.range 3).map accW).map (fun r => r.getD j 0))))]) ∧
    percentile 95 [0, 1, 2] = 19 / 10 :=
  ⟨(aggregate_teacher_accuracies_spec 2 "x" 1 accW []).2.1 rfl,
   (aggregate_teacher_accuracies_spec 2 "x" 3 accW []).2.2 (by norm_num),
   by norm_num [percentile, sortAsc, insertSorted, ratFloor_eq_floor, Int.floor_eq_iff]⟩

/-- C8 (spec-modelled): the grid teacher's `next_example` follows the
fixed deterministic order of the location list restricted to the
remaining locations: a returned example carries the ground-truth label
of its location, the location is still remaining, and every location
preceding it in the fixed order has already been taught. -/
theorem grid_teacher_spec {Loc Pred Eval : Type} [DecidableEq Loc]
    (gt : GroundTruth Loc Pred) (locations : List Loc)
    (history : History Loc Pred Eval) (loc : Loc) (lab : Label)
    (h : GridTeacher.next_example gt locations history = some (loc, lab)) :
    lab = gt.at_ loc ∧ loc ∈ remaining_locs locations history ∧
    ∃ pre suf, locations = pre ++ loc :: suf ∧
      ∀ p ∈ pre, p ∈ history.examples.map Prod.fst := by
  cases hrem : remaining_locs locations history with
  | nil => simp [GridTeacher.next_example, hrem] at h
  | cons r rest =>
    simp only [GridTeacher.next_example, hrem, List.head?, Option.map_some',
      Option.some.injEq, Prod.mk.injEq] at h
    obtain ⟨rfl, rfl⟩ := h
    obtain ⟨pre, suf, hsplit, hpre, -⟩ :=
      filter_eq_cons_split _ locations r rest hrem
    refine ⟨rfl, hrem ▸ List.mem_cons_self r rest, pre, suf, hsplit, ?_⟩
    intro p hp
    have := hpre p hp
    simpa using this

/-- Witness for C8: on the 2-location grid with location 0 already
taught, the grid teacher picks location 1. -/
theorem grid_teacher_spec_witness :
    (1 : Label) = natGroundTruth.at_ 1 ∧
    1 ∈ remaining_locs [0, 1] ((History.init () : History Nat Nat Unit).add_example (0, 1)) ∧
    ∃ pre suf, ([0, 1] : List Nat) = pre ++ 1 :: suf ∧
      ∀ p ∈ pre,
        p ∈ ((History.init () : History Nat Nat Unit).add_example (0, 1)).examples.map Prod.fst :=
  grid_teacher_spec natGroundTruth [0, 1]
    ((History.init ()).add_example (0, 1)) 1 1 (by decide)

end Capability
